import Mathlib

/-
Verification of the geerpc RPC framework (server admission control, request
loop, service lookup, client close, HTTP dial factory, registry, discovery
and broadcast) against its specification.  The Go sources are shallowly
embedded: machine integers and time instants become `Int` (Go `int` /
`time.Duration` / `time.Time` nanosecond counts), Go's truncated integer
division becomes `Int.tdiv`, maps become association lists, fallible
operations return `Option`/`Except`, and the per-connection request loop
becomes a recursive function over the list of incoming frames.
-/

set_option maxRecDepth 8000

namespace GeeRPC

/-! ## Token bucket (server.go: `TokenBucket`) -/

/-- State of the server's per-connection token-bucket admitter (`TokenBucket`
in the Go source).  The mutex only serializes `Allow` calls and is dropped;
`tokens`, `capacity`, `refillAmount` are the Go `int` fields, and
`refillInterval` / `lastRefill` are nanosecond counts (`time.Duration` /
`time.Time`) modelled as `Int`. -/
structure TokenBucket where
  tokens : Int
  capacity : Int
  refillAmount : Int
  refillInterval : Int
  lastRefill : Int
  deriving Repr, DecidableEq

/-- Embeds `NewTokenBucket`: the bucket starts full (`tokens = capacity`) and
`lastRefill` is the creation instant (`time.Now()`). -/
def NewTokenBucket (capacity refillAmount refillInterval now : Int) : TokenBucket :=
  { tokens := capacity
    capacity := capacity
    refillAmount := refillAmount
    refillInterval := refillInterval
    lastRefill := now }

/-- Embeds `TokenBucket.Allow` called at instant `now`:
`tokensToAdd := int(now.Sub(lastRefill)/refillInterval) * refillAmount`
(Go integer division truncates toward zero, hence `Int.tdiv`); if positive,
the tokens are replenished, clamped at `capacity`, and `lastRefill` moves to
`now`; then a token is consumed when one is available. -/
def TokenBucket.Allow (tb : TokenBucket) (now : Int) : Bool × TokenBucket :=
  let tokensToAdd : Int := ((now - tb.lastRefill).tdiv tb.refillInterval) * tb.refillAmount
  let tb1 : TokenBucket :=
    if 0 < tokensToAdd then
      { tb with
        tokens := if tb.capacity < tb.tokens + tokensToAdd then tb.capacity
                  else tb.tokens + tokensToAdd
        lastRefill := now }
    else tb
  if 0 < tb1.tokens then (true, { tb1 with tokens := tb1.tokens - 1 })
  else (false, tb1)

/-- Runs a sequence of `Allow` calls at the given instants; returns how many
calls returned `true`, together with the final bucket state. -/
def runAllow (tb : TokenBucket) : List Int → Nat × TokenBucket
  | [] => (0, tb)
  | t :: ts =>
    let r := tb.Allow t
    let rest := runAllow r.2 ts
    ((if r.1 then 1 else 0) + rest.1, rest.2)

/-- Bucket invariant: the token count stays between `0` and `capacity`. -/
def TokenBucket.Inv (tb : TokenBucket) : Prop :=
  0 ≤ tb.tokens ∧ tb.tokens ≤ tb.capacity

instance (tb : TokenBucket) : Decidable tb.Inv :=
  inferInstanceAs (Decidable (0 ≤ tb.tokens ∧ tb.tokens ≤ tb.capacity))

theorem TokenBucket.allow_inv (tb : TokenBucket) (now : Int) (h : tb.Inv) :
    ((tb.Allow now).2).Inv := by
  obtain ⟨h0, hc⟩ := h
  unfold TokenBucket.Allow
  dsimp only
  constructor <;> (split_ifs <;> (dsimp only at *) <;> omega)

theorem TokenBucket.allow_fields (tb : TokenBucket) (now : Int) :
    ((tb.Allow now).2).capacity = tb.capacity ∧
    ((tb.Allow now).2).refillAmount = tb.refillAmount ∧
    ((tb.Allow now).2).refillInterval = tb.refillInterval := by
  unfold TokenBucket.Allow
  dsimp only
  split_ifs <;> simp

theorem TokenBucket.allow_lastRefill (tb : TokenBucket) (now : Int) :
    ((tb.Allow now).2).lastRefill = tb.lastRefill ∨
    ((tb.Allow now).2).lastRefill = now := by
  unfold TokenBucket.Allow
  dsimp only
  split_ifs <;> simp

theorem ediv_add_ediv_le (a b n : Int) (hn : 0 < n) :
    a / n + b / n ≤ (a + b) / n := by
  rw [Int.le_ediv_iff_mul_le hn, add_mul]
  exact add_le_add (Int.ediv_mul_le a (ne_of_gt hn)) (Int.ediv_mul_le b (ne_of_gt hn))

theorem chain_le_weaken {x y : Int} {ts : List Int} (hxy : x ≤ y)
    (h : List.Chain (· ≤ ·) y ts) : List.Chain (· ≤ ·) x ts := by
  cases h with
  | nil => exact List.Chain.nil
  | cons hy hts => exact List.Chain.cons (le_trans hxy hy) hts

theorem TokenBucket.allow_step_bound (s : TokenBucket) (now Tmax : Int)
    (hI : 0 < s.refillInterval) (hR : 0 ≤ s.refillAmount)
    (hlr : s.lastRefill ≤ now) (hTm : now ≤ Tmax)
    (ok : Bool) (s' : TokenBucket) (heq : s.Allow now = (ok, s')) :
    (if ok then (1 : Int) else 0) + s'.tokens
      + s.refillAmount * ((Tmax - s'.lastRefill) / s.refillInterval)
    ≤ s.tokens + s.refillAmount * ((Tmax - s.lastRefill) / s.refillInterval) := by
  have hAeq : (now - s.lastRefill).tdiv s.refillInterval
      = (now - s.lastRefill) / s.refillInterval :=
    Int.tdiv_eq_ediv (by omega) (le_of_lt hI)
  have key : s.refillAmount * ((Tmax - now) / s.refillInterval)
      + ((now - s.lastRefill).tdiv s.refillInterval) * s.refillAmount
      ≤ s.refillAmount * ((Tmax - s.lastRefill) / s.refillInterval) := by
    rw [hAeq, mul_comm ((now - s.lastRefill) / s.refillInterval) s.refillAmount, ← mul_add]
    refine mul_le_mul_of_nonneg_left ?_ hR
    have h := ediv_add_ediv_le (Tmax - now) (now - s.lastRefill) s.refillInterval hI
    rwa [show Tmax - now + (now - s.lastRefill) = Tmax - s.lastRefill by ring] at h
  unfold TokenBucket.Allow at heq
  dsimp only at heq
  split_ifs at heq <;>
    (injection heq with hok hs; subst hok; subst hs) <;>
    (first
      | rw [if_pos rfl]
      | rw [if_neg Bool.false_ne_true]) <;>
    (try dsimp only) <;>
    linarith [key]

theorem runAllow_le (ts : List Int) : ∀ (s : TokenBucket) (Tmax : Int),
    0 < s.refillInterval → 0 ≤ s.refillAmount → s.Inv →
    List.Chain (· ≤ ·) s.lastRefill ts → (∀ t ∈ ts, t ≤ Tmax) → s.lastRefill ≤ Tmax →
    ((runAllow s ts).1 : Int)
      ≤ s.tokens + s.refillAmount * ((Tmax - s.lastRefill) / s.refillInterval) := by
  induction ts with
  | nil =>
    intro s Tmax hI hR hInv _ _ hLe
    have hpos : (0:Int) ≤ s.refillAmount * ((Tmax - s.lastRefill) / s.refillInterval) :=
      mul_nonneg hR (Int.ediv_nonneg (by omega) (le_of_lt hI))
    have h0 := hInv.1
    simp only [runAllow, Nat.cast_zero]
    omega
  | cons t ts ih =>
    intro s Tmax hI hR hInv hchain hmax hLe
    cases hchain with
    | cons hlt hchain =>
      rcases hA : s.Allow t with ⟨ok, s'⟩
      have htT : t ≤ Tmax := hmax t (by simp)
      have hstep := TokenBucket.allow_step_bound s t Tmax hI hR hlt htT ok s' hA
      have hfields := TokenBucket.allow_fields s t
      rw [hA] at hfields
      have hInv' : s'.Inv := by
        have h := TokenBucket.allow_inv s t hInv
        rwa [hA] at h
      have hlr' : s'.lastRefill ≤ t := by
        have h := TokenBucket.allow_lastRefill s t
        rw [hA] at h
        dsimp only at h
        rcases h with h | h <;> omega
      have hIH := ih s' Tmax (by rw [hfields.2.2]; exact hI) (by rw [hfields.2.1]; exact hR)
        hInv' (chain_le_weaken hlr' hchain) (fun u hu => hmax u (by simp [hu]))
        (le_trans hlr' htT)
      rw [hfields.2.1, hfields.2.2] at hIH
      have hrun : (runAllow s (t :: ts)).1 = (if ok then 1 else 0) + (runAllow s' ts).1 := by
        simp only [runAllow, hA]
      rw [hrun]
      rcases ok with _ | _
      · rw [if_neg Bool.false_ne_true] at hstep ⊢
        push_cast
        linarith [hstep, hIH]
      · rw [if_pos rfl] at hstep ⊢
        push_cast
        linarith [hstep, hIH]

/-- C10: for every bucket created by `NewTokenBucket` with `capacity ≥ 0`,
the invariant `0 ≤ tokens ≤ capacity` holds initially and is preserved by
every `Allow` call (the refill clamps at `capacity`; a token is consumed only
when `tokens > 0`). -/
theorem tokenBucket_invariant (capacity refillAmount refillInterval t0 : Int)
    (hcap : 0 ≤ capacity) :
    (NewTokenBucket capacity refillAmount refillInterval t0).Inv ∧
    ∀ (tb : TokenBucket) (now : Int), tb.Inv → ((tb.Allow now).2).Inv :=
  ⟨⟨hcap, le_refl capacity⟩, fun tb now h => TokenBucket.allow_inv tb now h⟩

theorem tokenBucket_invariant_witness :
    (0:Int) ≤ 10 ∧
    ((NewTokenBucket 10 2 1000000000 0).Inv ∧
     ∀ (tb : TokenBucket) (now : Int), tb.Inv → ((tb.Allow now).2).Inv) :=
  ⟨by decide, tokenBucket_invariant 10 2 1000000000 0 (by decide)⟩

/-- C4 (amended): for a bucket `(C, R, I)` the stated bound holds for windows
that start at the bucket's creation: if all `Allow` calls happen at
nondecreasing instants within `[0, T]` of the creation instant, then at most
`C + R * (T / I)` of them return `true`.  (For an arbitrary mid-stream window
the bound fails; see the counterexample.) -/
theorem tokenBucket_rate_bound (C R I T : Int) (hC : 0 ≤ C) (hR : 0 ≤ R) (hI : 0 < I)
    (hT : 0 ≤ T) (ts : List Int) (hchain : List.Chain (· ≤ ·) 0 ts)
    (hwin : ∀ t ∈ ts, t ≤ T) :
    ((runAllow (NewTokenBucket C R I 0) ts).1 : Int) ≤ C + R * (T / I) := by
  have h := runAllow_le ts (NewTokenBucket C R I 0) T hI hR ⟨hC, le_refl C⟩ hchain hwin hT
  simpa [NewTokenBucket] using h

theorem tokenBucket_rate_bound_witness :
    (0:Int) ≤ 10 ∧ (0:Int) ≤ 2 ∧ (0:Int) < 10 ∧ (0:Int) ≤ 25 ∧
    List.Chain (· ≤ ·) (0:Int) [0, 5, 20] ∧ (∀ t ∈ ([0, 5, 20] : List Int), t ≤ 25) ∧
    ((runAllow (NewTokenBucket 10 2 10 0) [0, 5, 20]).1 : Int) ≤ 10 + 2 * (25 / 10) :=
  ⟨by decide, by decide, by decide, by decide, by simp [List.chain_cons], by decide,
   tokenBucket_rate_bound 10 2 10 25 (by decide) (by decide) (by decide) (by decide)
     [0, 5, 20] (by simp [List.chain_cons]) (by decide)⟩

/-- C4 is false as stated for an arbitrary time window: with the bucket
`(C, R, I) = (10, 2, 10)` created at instant `0`, one `Allow` call at `100`,
and thirteen further calls all inside the window `[109, 121]` of length
`T = 12`, thirteen calls return `true`, exceeding
`C + R * ⌊T / I⌋ = 10 + 2 * 1 = 12` — the first refill inside the window
credits time accrued before the window. -/
theorem tokenBucket_rate_bound_cex :
    List.Chain (· ≤ ·) (109:Int)
      [109, 109, 109, 109, 109, 109, 109, 109, 109, 110, 110, 120, 120] ∧
    (∀ t ∈ ([109, 109, 109, 109, 109, 109, 109, 109, 109, 110, 110, 120, 120] : List Int),
       109 ≤ t ∧ t ≤ 121) ∧
    (121:Int) - 109 = 12 ∧
    (runAllow (runAllow (NewTokenBucket 10 2 10 0) [100]).2
       [109, 109, 109, 109, 109, 109, 109, 109, 109, 110, 110, 120, 120]).1 = 13 ∧
    ¬ ((13:Int) ≤ 10 + 2 * (((121:Int) - 109) / 10)) :=
  ⟨by simp [List.chain_cons], by decide, by decide, by decide, by decide⟩

/-! ## Service registry and `findService` (server.go: `findService`) -/

/-- Modelled from the spec: `MethodType` (`{name, argType, replyType,
numCalls}`, §3 of the spec); the file defining it (service.go) is not among
the provided sources.  The reflection types are carried as opaque strings;
only identity matters to the claims. -/
structure methodType where
  name : String
  argType : String
  replyType : String
  numCalls : Nat
  deriving Repr, DecidableEq

/-- Modelled from the spec: `Service` (`{name, receiver, methodMap}`, §3 of
the spec); the file defining it (service.go) is not among the provided
sources.  The method map is an association list keyed by method name; the
receiver value is irrelevant to the claims and dropped. -/
structure service where
  name : String
  method : List (String × methodType)
  deriving Repr, DecidableEq

/-- Splits a character list at its last `'.'`: returns the part before and
the part after, or `none` when no `'.'` occurs.  This models
`strings.LastIndex(serviceMethod, ".")` followed by the two slices
`serviceMethod[:dot]` and `serviceMethod[dot+1:]` in `findService`. -/
def lastDotSplitAux : List Char → Option (List Char × List Char)
  | [] => none
  | c :: cs =>
    match lastDotSplitAux cs with
    | some (pre, post) => some (c :: pre, post)
    | none => if c = '.' then some ([], cs) else none

/-- Embeds `Server.findService`: reject names without a dot, then look up the
service (text before the last dot) in the service map and the method (text
after the last dot) in the service's method map.  The `sync.Map` of services
is modelled as an association list. -/
def findService (serviceMap : List (String × service)) (serviceMethod : String) :
    Except String (service × methodType) :=
  match lastDotSplitAux serviceMethod.toList with
  | none => .error ("rpc server: service/method request ill-formed: " ++ serviceMethod)
  | some (pre, post) =>
    let serviceName := String.mk pre
    let methodName := String.mk post
    match serviceMap.lookup serviceName with
    | none => .error ("rpc server: can't find service " ++ serviceName)
    | some svc =>
      match svc.method.lookup methodName with
      | none => .error ("rpc server: can't find method " ++ methodName)
      | some mtype => .ok (svc, mtype)

theorem lastDotSplitAux_eq_none (l : List Char) :
    lastDotSplitAux l = none ↔ '.' ∉ l := by
  induction l with
  | nil => simp [lastDotSplitAux]
  | cons c cs ih =>
    simp only [lastDotSplitAux, List.mem_cons]
    cases h : lastDotSplitAux cs with
    | some p =>
      obtain ⟨p1, p2⟩ := p
      have hcs : '.' ∈ cs := by
        by_contra hmem
        rw [ih.mpr hmem] at h
        cases h
      simp [hcs]
    | none =>
      have hcs : '.' ∉ cs := ih.mp h
      split_ifs with hc
      · simp [hc]
      · simp [hcs, Ne.symm hc]

theorem lastDotSplitAux_append (pre post : List Char) (hpost : '.' ∉ post) :
    lastDotSplitAux (pre ++ '.' :: post) = some (pre, post) := by
  induction pre with
  | nil =>
    simp only [List.nil_append, lastDotSplitAux]
    rw [(lastDotSplitAux_eq_none post).mpr hpost]
    simp
  | cons c pre ih =>
    simp only [List.cons_append, lastDotSplitAux]
    rw [List.append_eq, ih]

/-- C7: `findService` errors exactly when the name has no dot (ill-formed),
when the part before the last dot names no registered service (message
`can't find service <name>`), or when the part after the last dot is not in
the service's method map (message `can't find method <name>`); otherwise it
returns the registered service together with the method type. -/
theorem findService_spec (sm : List (String × service)) :
    (∀ s : String, '.' ∉ s.toList →
       findService sm s = .error ("rpc server: service/method request ill-formed: " ++ s)) ∧
    (∀ pre post : List Char, '.' ∉ post →
       (sm.lookup (String.mk pre) = none →
          findService sm (String.mk (pre ++ '.' :: post)) =
            .error ("rpc server: can't find service " ++ String.mk pre)) ∧
       (∀ svc, sm.lookup (String.mk pre) = some svc →
          (svc.method.lookup (String.mk post) = none →
             findService sm (String.mk (pre ++ '.' :: post)) =
               .error ("rpc server: can't find method " ++ String.mk post)) ∧
          (∀ mt, svc.method.lookup (String.mk post) = some mt →
             findService sm (String.mk (pre ++ '.' :: post)) = .ok (svc, mt)))) := by
  constructor
  · intro s hs
    unfold findService
    rw [(lastDotSplitAux_eq_none s.toList).mpr hs]
  · intro pre post hpost
    have hsplit : lastDotSplitAux (String.mk (pre ++ '.' :: post)).toList = some (pre, post) :=
      lastDotSplitAux_append pre post hpost
    refine ⟨fun hnone => ?_, fun svc hsvc => ⟨fun hmn => ?_, fun mt hmt => ?_⟩⟩
    · unfold findService
      rw [hsplit]
      dsimp only
      simp [hnone]
    · unfold findService
      rw [hsplit]
      dsimp only
      simp [hsvc, hmn]
    · unfold findService
      rw [hsplit]
      dsimp only
      simp [hsvc, hmt]

def demoMethodType : methodType :=
  { name := "Echo", argType := "int", replyType := "*int", numCalls := 0 }

def demoService : service :=
  { name := "Svc", method := [("Echo", demoMethodType)] }

def demoServiceMap : List (String × service) :=
  [("Svc", demoService)]

theorem findService_spec_witness :
    findService demoServiceMap (String.mk (['S', 'v', 'c'] ++ '.' :: ['N', 'o', 'p', 'e'])) =
      .error ("rpc server: can't find method " ++ String.mk ['N', 'o', 'p', 'e']) :=
  (((findService_spec demoServiceMap).2 ['S', 'v', 'c'] ['N', 'o', 'p', 'e'] (by decide)).2
      demoService (by decide)).1 (by decide)

/-! ## Server request loop (server.go: `serveCodec`, `readRequest`) -/

/-- Embeds `codec.Header` (codec.go): service method name, sequence number
and error string. -/
structure Header where
  ServiceMethod : String
  Seq : Nat
  Error : String
  deriving Repr, DecidableEq

/-- Embeds the server-side `request` record: the header plus the fields
filled in as `readRequest` progresses (`none` = still zero).  The decoded
argument value is carried as an opaque string. -/
structure Request where
  h : Header
  svc : Option service
  mtype : Option methodType
  argv : Option String
  deriving Repr, DecidableEq

/-- Outcome of `cc.ReadBody` for one frame: the decoded value or a decode
error. -/
inductive BodyRead
  | ok (v : String)
  | err (msg : String)
  deriving Repr, DecidableEq

/-- One incoming item on the connection as the codec delivers it: either a
header-read failure (EOF included) or a header followed by its body. -/
inductive FrameIn
  | hdrErr (msg : String)
  | frame (h : Header) (body : BodyRead)
  deriving Repr, DecidableEq

/-- Body of a response written by the request loop: the
`invalidRequest` placeholder (`struct{}{}`) or a string value, as passed to
`sendResponse`. -/
inductive RespBody
  | invalid
  | str (s : String)
  deriving Repr, DecidableEq

/-- Embeds `Server.readRequest`: read the header (failure returns
`(nil, err)`), resolve the service and method (failure returns the partial
request and the error, without reading the body), then decode the body into
the freshly allocated `argv` (failure returns the request and the error). -/
def readRequest (sm : List (String × service)) (f : FrameIn) :
    Option Request × Option String :=
  match f with
  | .hdrErr msg => (none, some msg)
  | .frame h body =>
    match findService sm h.ServiceMethod with
    | .error e => (some { h := h, svc := none, mtype := none, argv := none }, some e)
    | .ok (svc, mt) =>
      match body with
      | .err msg => (some { h := h, svc := some svc, mtype := some mt, argv := none }, some msg)
      | .ok v => (some { h := h, svc := some svc, mtype := some mt, argv := some v }, none)

/-- Embeds the `serveCodec` request loop.  Each iteration consumes one
instant from the clock list (`time.Now()` at the `Allow` call); when no token
is available the loop writes `(Header{ServiceMethod: ""}, "rate limit
exceeded")` and continues without touching the frame stream; otherwise it
reads the next frame via `readRequest`: a nil request breaks the loop, an
error sets `req.h.Error` and answers with the `invalidRequest` placeholder,
and a good request is handed to a worker (collected in the middle
component).  Returns (loop-written responses, spawned worker requests,
frames left unread). -/
def serveCodecLoop (sm : List (String × service)) :
    TokenBucket → List Int → List FrameIn →
      List (Header × RespBody) × List Request × List FrameIn
  | _, [], frames => ([], [], frames)
  | tb, now :: ts, frames =>
    let a := tb.Allow now
    if a.1 = false then
      let rest := serveCodecLoop sm a.2 ts frames
      (({ ServiceMethod := "", Seq := 0, Error := "" }, RespBody.str "rate limit exceeded")
         :: rest.1, rest.2)
    else
      match frames with
      | [] => ([], [], [])
      | f :: fs =>
        match readRequest sm f with
        | (none, _) => ([], [], fs)
        | (some req, some e) =>
          let rest := serveCodecLoop sm a.2 ts fs
          (({ req.h with Error := e }, RespBody.invalid) :: rest.1, rest.2)
        | (some req, none) =>
          let rest := serveCodecLoop sm a.2 ts fs
          (rest.1, req :: rest.2.1, rest.2.2)

/-- C1 (amended): when the token bucket rejects an iteration, the loop
writes a response whose header has empty service-method and EMPTY error and
whose body is the string `"rate limit exceeded"`, then continues the loop
without reading a header or body (the frame stream is passed on unread). -/
theorem serveCodec_rate_limit (sm : List (String × service)) (tb : TokenBucket)
    (now : Int) (ts : List Int) (frames : List FrameIn)
    (h : (tb.Allow now).1 = false) :
    serveCodecLoop sm tb (now :: ts) frames =
      (({ ServiceMethod := "", Seq := 0, Error := "" }, RespBody.str "rate limit exceeded")
         :: (serveCodecLoop sm (tb.Allow now).2 ts frames).1,
       (serveCodecLoop sm (tb.Allow now).2 ts frames).2) := by
  simp [serveCodecLoop, h]

theorem serveCodec_rate_limit_witness :
    ((NewTokenBucket 0 0 1 0).Allow 0).1 = false ∧
    serveCodecLoop [] (NewTokenBucket 0 0 1 0) [0] [] =
      (({ ServiceMethod := "", Seq := 0, Error := "" }, RespBody.str "rate limit exceeded")
         :: (serveCodecLoop [] ((NewTokenBucket 0 0 1 0).Allow 0).2 [] []).1,
       (serveCodecLoop [] ((NewTokenBucket 0 0 1 0).Allow 0).2 [] []).2) :=
  ⟨by decide, serveCodec_rate_limit [] (NewTokenBucket 0 0 1 0) 0 [] [] (by decide)⟩

/-- C1 is false as stated: with the server's default bucket `(10, 2, 1s)`
drained by ten accepted iterations, the rejected iteration writes a response
whose header error is `""` — not `"rate limit exceeded"` (the message is sent
as the BODY) — while indeed consuming no frame. -/
theorem serveCodec_rate_limit_cex :
    (serveCodecLoop [] (runAllow (NewTokenBucket 10 2 10 0) [0, 0, 0, 0, 0, 0, 0, 0, 0, 0]).2
        [0] [FrameIn.hdrErr "EOF"]).1 =
      [({ ServiceMethod := "", Seq := 0, Error := "" }, RespBody.str "rate limit exceeded")] ∧
    ("" : String) ≠ "rate limit exceeded" ∧
    (serveCodecLoop [] (runAllow (NewTokenBucket 10 2 10 0) [0, 0, 0, 0, 0, 0, 0, 0, 0, 0]).2
        [0] [FrameIn.hdrErr "EOF"]).2.2 = [FrameIn.hdrErr "EOF"] := by
  decide

/-- C2 (amended): when the header is read and the method resolves but the
body decode fails, the server does NOT terminate the connection: it records
the decode error on the request header, answers with the `invalidRequest`
placeholder body, and continues the loop on the remaining frames. -/
theorem serveCodec_decode_failure (sm : List (String × service)) (tb : TokenBucket)
    (now : Int) (ts : List Int) (fs : List FrameIn) (h : Header) (msg : String)
    (svc : service) (mt : methodType)
    (hallow : (tb.Allow now).1 = true)
    (hfind : findService sm h.ServiceMethod = .ok (svc, mt)) :
    serveCodecLoop sm tb (now :: ts) (FrameIn.frame h (BodyRead.err msg) :: fs) =
      (({ h with Error := msg }, RespBody.invalid)
         :: (serveCodecLoop sm (tb.Allow now).2 ts fs).1,
       (serveCodecLoop sm (tb.Allow now).2 ts fs).2) := by
  simp [serveCodecLoop, hallow, readRequest, hfind]

theorem serveCodec_decode_failure_witness :
    ((NewTokenBucket 10 2 10 0).Allow 0).1 = true ∧
    findService demoServiceMap "Svc.Echo" = .ok (demoService, demoMethodType) ∧
    serveCodecLoop demoServiceMap (NewTokenBucket 10 2 10 0) [0]
        [FrameIn.frame { ServiceMethod := "Svc.Echo", Seq := 1, Error := "" }
           (BodyRead.err "gob: decode error")] =
      (({ ServiceMethod := "Svc.Echo", Seq := 1, Error := "gob: decode error" },
          RespBody.invalid)
         :: (serveCodecLoop demoServiceMap ((NewTokenBucket 10 2 10 0).Allow 0).2 [] []).1,
       (serveCodecLoop demoServiceMap ((NewTokenBucket 10 2 10 0).Allow 0).2 [] []).2) :=
  ⟨by decide, rfl,
   serveCodec_decode_failure demoServiceMap (NewTokenBucket 10 2 10 0) 0 [] []
     { ServiceMethod := "Svc.Echo", Seq := 1, Error := "" } "gob: decode error"
     demoService demoMethodType (by decide) rfl⟩

/-- C2 is false as stated: after a body-decode failure on the first request,
the server still serves the second request on the same connection (the
spawned worker list contains it), so decode failure is not fatal to the
connection. -/
theorem serveCodec_decode_fatal_cex :
    (serveCodecLoop demoServiceMap (NewTokenBucket 10 2 10 0) [0, 0]
       [FrameIn.frame { ServiceMethod := "Svc.Echo", Seq := 1, Error := "" }
          (BodyRead.err "gob: decode error"),
        FrameIn.frame { ServiceMethod := "Svc.Echo", Seq := 2, Error := "" }
          (BodyRead.ok "7")]).1 =
      [({ ServiceMethod := "Svc.Echo", Seq := 1, Error := "gob: decode error" },
         RespBody.invalid)] ∧
    (serveCodecLoop demoServiceMap (NewTokenBucket 10 2 10 0) [0, 0]
       [FrameIn.frame { ServiceMethod := "Svc.Echo", Seq := 1, Error := "" }
          (BodyRead.err "gob: decode error"),
        FrameIn.frame { ServiceMethod := "Svc.Echo", Seq := 2, Error := "" }
          (BodyRead.ok "7")]).2.1 =
      [{ h := { ServiceMethod := "Svc.Echo", Seq := 2, Error := "" },
         svc := some demoService, mtype := some demoMethodType, argv := some "7" }] ∧
    (serveCodecLoop demoServiceMap (NewTokenBucket 10 2 10 0) [0, 0]
       [FrameIn.frame { ServiceMethod := "Svc.Echo", Seq := 1, Error := "" }
          (BodyRead.err "gob: decode error"),
        FrameIn.frame { ServiceMethod := "Svc.Echo", Seq := 2, Error := "" }
          (BodyRead.ok "7")]).2.1 ≠ [] := by
  decide

/-! ## Registry (registry.go half of src/codec/codec.go: `GeeRegistry`) -/

/-- Embeds `ServerItem`: server address plus last-heartbeat instant
(`start`). -/
structure ServerItem where
  Addr : String
  start : Int
  deriving Repr, DecidableEq

/-- Embeds `GeeRegistry`: the eviction timeout and the `addr -> *ServerItem`
map, modelled as an association list. -/
structure GeeRegistry where
  timeout : Int
  servers : List (String × ServerItem)
  deriving Repr, DecidableEq

/-- Liveness test used by `aliveServers`:
`r.timeout == 0 || s.start.Add(r.timeout).After(time.Now())`. -/
def serverAlive (timeout now : Int) (s : ServerItem) : Bool :=
  decide (timeout = 0) || decide (now < s.start + timeout)

/-- Embeds `GeeRegistry.aliveServers` at instant `now`: every stale entry is
deleted from the map during the scan, the surviving addresses are collected
and sorted (`sort.Strings`). -/
def GeeRegistry.aliveServers (r : GeeRegistry) (now : Int) :
    List String × GeeRegistry :=
  let kept := r.servers.filter (fun p => serverAlive r.timeout now p.2)
  ((kept.map (fun p => p.1)).mergeSort (fun a b => decide (a ≤ b)),
   { r with servers := kept })

/-- Method of an HTTP request hitting the registry handler. -/
inductive HttpMethod
  | GET
  | POST
  | other
  deriving Repr, DecidableEq

/-- Observable response of the registry handler: the `X-Geerpc-Servers`
header (set on `GET` only) and the status code (`WriteHeader` defaults to
200). -/
structure RegistryResponse where
  serversHeader : Option String
  status : Nat
  deriving Repr, DecidableEq

/-- Embeds `GeeRegistry.putServer`: insert a fresh entry or refresh the
existing entry's `start`. -/
def GeeRegistry.putServer (r : GeeRegistry) (addr : String) (now : Int) : GeeRegistry :=
  match r.servers.lookup addr with
  | none => { r with servers := r.servers ++ [(addr, { Addr := addr, start := now })] }
  | some _ =>
    { r with servers :=
        r.servers.map (fun p => if p.1 = addr then (p.1, { p.2 with start := now }) else p) }

/-- Embeds `GeeRegistry.ServeHTTP`: `GET` answers the sorted comma-joined
alive list in `X-Geerpc-Servers` (evicting stale entries as a side effect),
`POST` registers the address carried in `X-Geerpc-Server` (500 when the
header is missing, i.e. empty), and any other method gets 405. -/
def GeeRegistry.ServeHTTP (r : GeeRegistry) (method : HttpMethod)
    (serverHeader : Option String) (now : Int) : RegistryResponse × GeeRegistry :=
  match method with
  | .GET =>
    let res := r.aliveServers now
    ({ serversHeader := some (String.intercalate "," res.1), status := 200 }, res.2)
  | .POST =>
    let addr := serverHeader.getD ""
    if addr = "" then ({ serversHeader := none, status := 500 }, r)
    else ({ serversHeader := none, status := 200 }, r.putServer addr now)
  | .other => ({ serversHeader := none, status := 405 }, r)

/-- C5: a `GET` returns in `X-Geerpc-Servers` the alive addresses, sorted
and comma-joined, and during the scan every entry with
`lastSeen + timeout ≤ now` is evicted (timeout ≠ 0 here): a server whose
last heartbeat is older than the timeout is absent from the response and
from the registry map afterwards, hence from the next `GET` response. -/
theorem registry_get_evicts (r : GeeRegistry) (now : Int) (addr : String)
    (htimeout : r.timeout ≠ 0)
    (hstale : ∀ p ∈ r.servers, p.1 = addr → p.2.start + r.timeout ≤ now) :
    ∃ alive : List String,
      ((r.ServeHTTP .GET none now).1).serversHeader = some (String.intercalate "," alive) ∧
      List.Sorted (· ≤ ·) alive ∧
      alive.Perm ((r.servers.filter (fun p => serverAlive r.timeout now p.2)).map
        (fun p => p.1)) ∧
      addr ∉ alive ∧
      ∀ s : ServerItem, (addr, s) ∉ ((r.ServeHTTP .GET none now).2).servers := by
  have notalive : ∀ s : ServerItem, (addr, s) ∈ r.servers →
      serverAlive r.timeout now s = false := by
    intro s hs
    have hle := hstale (addr, s) hs rfl
    dsimp only at hle
    unfold serverAlive
    simp only [Bool.or_eq_false_iff, decide_eq_false_iff_not]
    exact ⟨htimeout, by omega⟩
  refine ⟨((r.servers.filter (fun p => serverAlive r.timeout now p.2)).map
      (fun p => p.1)).mergeSort (fun a b => decide (a ≤ b)), ?_, ?_, ?_, ?_, ?_⟩
  · rfl
  · have htrans : ∀ a b c : String,
        decide (a ≤ b) = true → decide (b ≤ c) = true → decide (a ≤ c) = true := by
      intro a b c hab hbc
      simp only [decide_eq_true_eq] at *
      exact le_trans hab hbc
    have htot : ∀ a b : String, (decide (a ≤ b) || decide (b ≤ a)) = true := by
      intro a b
      simp only [Bool.or_eq_true, decide_eq_true_eq]
      exact le_total a b
    exact (List.sorted_mergeSort htrans htot _).imp (fun hh => of_decide_eq_true hh)
  · exact List.mergeSort_perm _ _
  · intro hmem
    rw [List.mem_mergeSort, List.mem_map] at hmem
    obtain ⟨p, hp, heq⟩ := hmem
    rw [List.mem_filter] at hp
    obtain ⟨p1, p2⟩ := p
    cases heq
    rw [notalive p2 hp.1] at hp
    cases hp.2
  · intro s hs
    have hmem : (addr, s) ∈ r.servers.filter (fun p => serverAlive r.timeout now p.2) := hs
    rw [List.mem_filter] at hmem
    rw [notalive s hmem.1] at hmem
    cases hmem.2

def demoRegistry : GeeRegistry :=
  { timeout := 100
    servers := [("s1", { Addr := "s1", start := 0 }), ("s2", { Addr := "s2", start := 50 })] }

theorem registry_get_evicts_witness :
    ∃ alive : List String,
      ((demoRegistry.ServeHTTP .GET none 120).1).serversHeader =
        some (String.intercalate "," alive) ∧
      List.Sorted (· ≤ ·) alive ∧
      alive.Perm ((demoRegistry.servers.filter
        (fun p => serverAlive demoRegistry.timeout 120 p.2)).map (fun p => p.1)) ∧
      "s1" ∉ alive ∧
      ∀ s : ServerItem, ("s1", s) ∉ ((demoRegistry.ServeHTTP .GET none 120).2).servers :=
  registry_get_evicts demoRegistry 120 "s1" (by decide) (by decide)

/-! ## Discovery (xclient discovery source: `MultiServersDiscovery.Get`) -/

/-- Embeds `SelectMode`: how the load balancer picks a server. -/
inductive SelectMode
  | RandomSelect
  | RoundRobinSelect
  deriving Repr, DecidableEq

/-- Embeds `MultiServersDiscovery`: the explicit server list and the
round-robin position.  The `rand.Rand` source is not part of the state the
claims touch; the random draw is passed to `Get` as an argument. -/
structure MultiServersDiscovery where
  servers : List String
  index : Nat
  deriving Repr, DecidableEq

/-- Embeds `MultiServersDiscovery.Get`: an empty list errors; `RandomSelect`
returns `servers[rnd]` (`rnd` models `d.r.Intn(n)` and is reduced mod `n`);
`RoundRobinSelect` returns `servers[index % n]` and advances
`index := (index + 1) % n`. -/
def MultiServersDiscovery.Get (d : MultiServersDiscovery) (mode : SelectMode) (rnd : Nat) :
    Except String String × MultiServersDiscovery :=
  if hn : d.servers.length = 0 then
    (.error "rpc discovery: no available servers", d)
  else
    match mode with
    | .RandomSelect =>
      (.ok (d.servers.get ⟨rnd % d.servers.length, Nat.mod_lt _ (Nat.pos_of_ne_zero hn)⟩), d)
    | .RoundRobinSelect =>
      (.ok (d.servers.get ⟨d.index % d.servers.length, Nat.mod_lt _ (Nat.pos_of_ne_zero hn)⟩),
       { d with index := (d.index + 1) % d.servers.length })

/-- Runs `k` consecutive `Get(RoundRobinSelect)` calls, collecting the
results in order. -/
def runGetRR (d : MultiServersDiscovery) : Nat → List (Except String String) × MultiServersDiscovery
  | 0 => ([], d)
  | k + 1 =>
    let r := d.Get .RoundRobinSelect 0
    let rest := runGetRR r.2 k
    (r.1 :: rest.1, rest.2)

theorem rotate_take_succ {α : Type} (l : List α) (i k : Nat) (hk : k + 1 ≤ l.length) :
    (l.rotate i).take (k + 1) =
      l.get ⟨i % l.length, Nat.mod_lt _ (by omega)⟩ :: ((l.rotate (i + 1)).take k) := by
  have hpos : 0 < l.length := by omega
  have hlen : (l.rotate i).length = l.length := List.length_rotate l i
  cases hrot : l.rotate i with
  | nil =>
    rw [hrot] at hlen
    simp at hlen
    omega
  | cons a t =>
    have h0 : (0 : Nat) < (l.rotate i).length := by
      rw [hlen]
      exact hpos
    have hga : (l.rotate i)[0]? = some a := by
      rw [hrot]
      simp
    have hgb : (l.rotate i)[0]? = some (l.get ⟨i % l.length, Nat.mod_lt _ hpos⟩) := by
      rw [List.getElem?_eq_getElem h0]
      have hg := List.get_rotate l i ⟨0, h0⟩
      simp only [List.get_eq_getElem] at hg
      simp [hg]
    have hhead : a = l.get ⟨i % l.length, Nat.mod_lt _ hpos⟩ := by
      rw [hga] at hgb
      exact Option.some.inj hgb
    have hrot1 : l.rotate (i + 1) = t ++ [a] := by
      rw [← List.rotate_rotate, hrot, List.rotate_cons_succ, List.rotate_zero]
    have ht : t.length + 1 = l.length := by
      rw [hrot] at hlen
      simpa using hlen
    rw [List.take_succ_cons, hrot1, List.take_append_of_le_length (by omega), hhead]

theorem runGetRR_eq (k : Nat) : ∀ (d : MultiServersDiscovery),
    0 < d.servers.length → k ≤ d.servers.length →
    (runGetRR d k).1 = ((d.servers.rotate d.index).take k).map Except.ok := by
  induction k with
  | zero =>
    intro d hpos hk
    simp [runGetRR]
  | succ k ih =>
    intro d hpos hk
    have hstep : d.Get .RoundRobinSelect 0 =
        (.ok (d.servers.get ⟨d.index % d.servers.length, Nat.mod_lt _ hpos⟩),
         { d with index := (d.index + 1) % d.servers.length }) := by
      unfold MultiServersDiscovery.Get
      rw [dif_neg (by omega)]
    simp only [runGetRR, hstep]
    rw [ih { d with index := (d.index + 1) % d.servers.length } hpos (by dsimp only; omega)]
    dsimp only
    rw [List.rotate_mod, rotate_take_succ d.servers d.index k hk]
    simp

/-- C6: with a static server list of size `n > 0` and any starting index,
`n` consecutive `Get(RoundRobinSelect)` calls return exactly the rotation of
the server list starting at `index % n` — a permutation of the list, so each
server is returned exactly once — and each call advances the index modulo
the current list length. -/
theorem roundRobin_fairness (d : MultiServersDiscovery) (n : Nat)
    (hn : d.servers.length = n) (hpos : 0 < n) :
    (runGetRR d n).1 = (d.servers.rotate d.index).map Except.ok ∧
    List.Perm ((runGetRR d n).1) (d.servers.map Except.ok) ∧
    ∀ (d2 : MultiServersDiscovery) (rnd : Nat), 0 < d2.servers.length →
      ((d2.Get .RoundRobinSelect rnd).2).index = (d2.index + 1) % d2.servers.length := by
  have hpos' : 0 < d.servers.length := by omega
  have h1 : (runGetRR d n).1 = ((d.servers.rotate d.index).take n).map Except.ok :=
    runGetRR_eq n d hpos' (by omega)
  have htake : (d.servers.rotate d.index).take n = d.servers.rotate d.index := by
    have hlen : (d.servers.rotate d.index).length = n := by
      rw [List.length_rotate]
      exact hn
    rw [← hlen, List.take_length]
  refine ⟨by rw [h1, htake], ?_, ?_⟩
  · rw [h1, htake]
    exact (List.rotate_perm d.servers d.index).map Except.ok
  · intro d2 rnd hp
    unfold MultiServersDiscovery.Get
    rw [dif_neg (by omega)]

theorem roundRobin_fairness_witness :
    (["a", "b", "c"] : List String).length = 3 ∧ 0 < 3 ∧
    ((runGetRR { servers := ["a", "b", "c"], index := 7 } 3).1 =
       ((["a", "b", "c"] : List String).rotate 7).map Except.ok ∧
     List.Perm ((runGetRR { servers := ["a", "b", "c"], index := 7 } 3).1)
       ((["a", "b", "c"] : List String).map Except.ok) ∧
     ∀ (d2 : MultiServersDiscovery) (rnd : Nat), 0 < d2.servers.length →
       ((d2.Get .RoundRobinSelect rnd).2).index = (d2.index + 1) % d2.servers.length) :=
  ⟨rfl, by decide,
   roundRobin_fairness { servers := ["a", "b", "c"], index := 7 } 3 rfl (by decide)⟩

/-! ## Client close (client source: `Client.Close`) -/

/-- Embeds the `Client` state relevant to `Close`: the `closing` and
`shutdown` flags; `cc.Close()` on the codec is modelled by incrementing
`codecCloseCount`. -/
structure Client where
  closing : Bool
  shutdown : Bool
  codecCloseCount : Nat
  deriving Repr, DecidableEq

/-- Result of `Client.Close`: `ErrShutdown`, or the value `cc.Close()`
returned. -/
inductive CloseResult
  | errShutdown
  | codecClosed
  deriving Repr, DecidableEq

/-- Embeds `Client.Close`: under the state mutex, a call that observes
`closing` already set returns `ErrShutdown`; otherwise it sets `closing` and
closes the codec. -/
def Client.Close (c : Client) : CloseResult × Client :=
  if c.closing then (.errShutdown, c)
  else (.codecClosed, { c with closing := true, codecCloseCount := c.codecCloseCount + 1 })

/-- C8: the first `Close` on a client that is not yet closing sets the
`closing` flag and closes the codec exactly once, and every call on a
closing client returns `ErrShutdown` leaving the state — in particular the
codec-close count — unchanged, so later calls never close the codec again. -/
theorem client_close_idempotent (c : Client) (h : c.closing = false) :
    (Client.Close c).1 = CloseResult.codecClosed ∧
    ((Client.Close c).2).closing = true ∧
    ((Client.Close c).2).codecCloseCount = c.codecCloseCount + 1 ∧
    ∀ c2 : Client, c2.closing = true →
      Client.Close c2 = (CloseResult.errShutdown, c2) := by
  refine ⟨by simp [Client.Close, h], by simp [Client.Close, h], by simp [Client.Close, h],
    fun c2 h2 => by simp [Client.Close, h2]⟩

theorem client_close_idempotent_witness :
    ({ closing := false, shutdown := false, codecCloseCount := 0 } : Client).closing = false ∧
    ((Client.Close { closing := false, shutdown := false, codecCloseCount := 0 }).1 =
        CloseResult.codecClosed ∧
     ((Client.Close { closing := false, shutdown := false, codecCloseCount := 0 }).2).closing =
        true ∧
     ((Client.Close
         { closing := false, shutdown := false, codecCloseCount := 0 }).2).codecCloseCount =
        0 + 1 ∧
     ∀ c2 : Client, c2.closing = true →
       Client.Close c2 = (CloseResult.errShutdown, c2)) :=
  ⟨rfl, client_close_idempotent { closing := false, shutdown := false, codecCloseCount := 0 } rfl⟩

/-! ## HTTP dial factory (client source: `NewHTTPClient`) -/

/-- Modelled from the spec: the default RPC path `/_geerpc_` (§6); the
server-side file defining `defaultRPCPath` is not among the provided
sources. -/
def defaultRPCPath : String := "/_geerpc_"

/-- Modelled from the spec: the success status line
`200 Connected to Gee RPC` (§4.5/§6); the file defining the `connected`
constant is not among the provided sources. -/
def connected : String := "200 Connected to Gee RPC"

/-- Embeds `NewHTTPClient`: it writes
`fmt.Sprintf("CONNECT %s HTTP/1.0\n\n", defaultRPCPath)` to the connection,
then parses the HTTP response.  The first component is the byte string
written; the second is the outcome: a client (`ok`) only when the parse
succeeded and the status equals `connected`, the `unexpected HTTP response`
error for any other parsed status, and the parse error itself otherwise. -/
def NewHTTPClient (resp : Except String String) : String × Except String Unit :=
  ("CONNECT " ++ defaultRPCPath ++ " HTTP/1.0\n\n",
   match resp with
   | .ok status =>
     if status = connected then .ok ()
     else .error ("unexpected HTTP response: " ++ status)
   | .error e => .error e)

/-- C9 is false as stated: the dial factory writes the request line followed
by two bare LF characters (`"\n\n"`), not by `"\r\n\r\n"`. -/
theorem newHTTPClient_cex :
    (NewHTTPClient (.ok "x")).1 = "CONNECT /_geerpc_ HTTP/1.0\n\n" ∧
    (NewHTTPClient (.ok "x")).1 ≠ "CONNECT /_geerpc_ HTTP/1.0\r\n\r\n" := by
  constructor
  · rfl
  · intro h
    exact absurd (congrArg String.toList h) (by decide)

/-- C9 (amended): the HTTP dial factory writes exactly
`"CONNECT <rpcPath> HTTP/1.0\n\n"` (LF separators, not CRLF) to the
connection, and constructs a client exactly when the parsed response status
equals `200 Connected to Gee RPC`; any other parsed status yields the
`unexpected HTTP response` error and a parse failure yields its own error —
in all non-matching cases no client is produced. -/
theorem newHTTPClient_spec (resp : Except String String) :
    (NewHTTPClient resp).1 = "CONNECT " ++ defaultRPCPath ++ " HTTP/1.0\n\n" ∧
    ((NewHTTPClient resp).2 = .ok () ↔ resp = .ok connected) ∧
    (∀ status, resp = .ok status → status ≠ connected →
       (NewHTTPClient resp).2 = .error ("unexpected HTTP response: " ++ status)) ∧
    (∀ e, resp = .error e → (NewHTTPClient resp).2 = .error e) := by
  refine ⟨rfl, ?_, ?_, ?_⟩
  · constructor
    · intro h
      rcases resp with e | status
      · simp [NewHTTPClient] at h
      · by_cases hs : status = connected
        · rw [hs]
        · simp [NewHTTPClient, hs] at h
    · intro h
      rw [h]
      simp [NewHTTPClient]
  · intro status hst hne
    rw [hst]
    simp [NewHTTPClient, hne]
  · intro e he
    rw [he]
    rfl

theorem newHTTPClient_spec_witness :
    (NewHTTPClient (.ok "404 Not Found")).2 =
      .error ("unexpected HTTP response: " ++ "404 Not Found") :=
  (newHTTPClient_spec (.ok "404 Not Found")).2.2.1 "404 Not Found" rfl (by decide)

/-! ## Broadcast (xclient source: `XClient.Broadcast`) -/

/-- Outcome of one `Broadcast` branch: the error returned by `xc.call` on
the branch's cloned reply, and the cloned reply's value after the call.  A
list of `BranchResult`s, in the order the branches acquire the mutex,
represents one interleaving of the serialized critical sections. -/
structure BranchResult (V : Type) where
  err : Option String
  val : V
  deriving Repr, DecidableEq

/-- Shared state that `Broadcast` guards with `mu`: the first-observed error
`e`, the `replyDone` flag, whether `cancel()` has been invoked, the caller's
`reply` slot, and how many times that slot has been written. -/
structure BroadcastState (V : Type) where
  e : Option String
  replyDone : Bool
  cancelled : Bool
  reply : Option V
  writes : Nat
  deriving Repr, DecidableEq

/-- Embeds the mutex-protected tail of one `Broadcast` branch:
`if err != nil && e == nil { e = err; cancel() }` then
`if err == nil && !replyDone { reply <- clonedReply; replyDone = true }`. -/
def broadcastStep {V : Type} (st : BroadcastState V) (r : BranchResult V) : BroadcastState V :=
  let st1 :=
    match r.err, st.e with
    | some msg, none => { st with e := some msg, cancelled := true }
    | _, _ => st
  match r.err, st1.replyDone with
  | none, false =>
    { st1 with reply := some r.val, writes := st1.writes + 1, replyDone := true }
  | _, _ => st1

/-- Embeds `XClient.Broadcast`'s shared-state evolution: all branches run
the critical section in some order (the list order); `replyDone` starts as
`reply == nil`.  `Broadcast` returns the final `e`. -/
def Broadcast {V : Type} (replyNil : Bool) (results : List (BranchResult V)) :
    BroadcastState V :=
  results.foldl broadcastStep
    { e := none, replyDone := replyNil, cancelled := false, reply := none, writes := 0 }

theorem broadcastStep_err_first {V : Type} (st : BroadcastState V) (m : String) (v : V)
    (h : st.e = none) :
    broadcastStep st ⟨some m, v⟩ = { st with e := some m, cancelled := true } := by
  simp [broadcastStep, h]

theorem broadcastStep_err_later {V : Type} (st : BroadcastState V) (m x : String) (v : V)
    (h : st.e = some x) :
    broadcastStep st ⟨some m, v⟩ = st := by
  simp [broadcastStep, h]

theorem broadcastStep_success_new {V : Type} (st : BroadcastState V) (v : V)
    (h : st.replyDone = false) :
    broadcastStep st ⟨none, v⟩ =
      { st with reply := some v, writes := st.writes + 1, replyDone := true } := by
  rcases he : st.e with _ | x <;> simp [broadcastStep, he, h]

theorem broadcastStep_success_done {V : Type} (st : BroadcastState V) (v : V)
    (h : st.replyDone = true) :
    broadcastStep st ⟨none, v⟩ = st := by
  rcases he : st.e with _ | x <;> simp [broadcastStep, he, h]

theorem broadcast_foldl_e_some {V : Type} (rs : List (BranchResult V)) :
    ∀ (st : BroadcastState V) (x : String), st.e = some x →
      (rs.foldl broadcastStep st).e = some x := by
  induction rs with
  | nil =>
    intro st x h
    simpa using h
  | cons r rs ih =>
    intro st x h
    rcases r with ⟨err, v⟩
    rcases err with _ | m
    · rcases hrd : st.replyDone with _ | _
      · rw [List.foldl_cons, broadcastStep_success_new st v hrd]
        exact ih _ x h
      · rw [List.foldl_cons, broadcastStep_success_done st v hrd]
        exact ih _ x h
    · rw [List.foldl_cons, broadcastStep_err_later st m x v h]
      exact ih _ x h

theorem broadcast_foldl_e {V : Type} (rs : List (BranchResult V)) :
    ∀ st : BroadcastState V, st.e = none →
      (rs.foldl broadcastStep st).e =
        (rs.find? (fun r => r.err.isSome)).bind (fun r => r.err) := by
  induction rs with
  | nil =>
    intro st h
    simpa using h
  | cons r rs ih =>
    intro st h
    rcases r with ⟨err, v⟩
    rcases err with _ | m
    · rw [List.find?_cons_of_neg _ (by simp)]
      rcases hrd : st.replyDone with _ | _
      · rw [List.foldl_cons, broadcastStep_success_new st v hrd]
        exact ih _ h
      · rw [List.foldl_cons, broadcastStep_success_done st v hrd]
        exact ih _ h
    · rw [List.find?_cons_of_pos _ (by simp), List.foldl_cons,
        broadcastStep_err_first st m v h]
      exact broadcast_foldl_e_some rs _ m rfl

theorem broadcast_foldl_cancelled_true {V : Type} (rs : List (BranchResult V)) :
    ∀ st : BroadcastState V, st.cancelled = true →
      (rs.foldl broadcastStep st).cancelled = true := by
  induction rs with
  | nil =>
    intro st h
    simpa using h
  | cons r rs ih =>
    intro st h
    rcases r with ⟨err, v⟩
    have hstep : (broadcastStep st ⟨err, v⟩).cancelled = true := by
      rcases err with _ | m <;> rcases he : st.e with _ | x <;>
        rcases hrd : st.replyDone with _ | _ <;> simp [broadcastStep, he, hrd, h]
    rw [List.foldl_cons]
    exact ih _ hstep

theorem broadcast_foldl_cancelled {V : Type} (rs : List (BranchResult V)) :
    ∀ st : BroadcastState V, st.e = none → st.cancelled = false →
      (rs.foldl broadcastStep st).cancelled = rs.any (fun r => r.err.isSome) := by
  induction rs with
  | nil =>
    intro st _ h
    simpa using h
  | cons r rs ih =>
    intro st he hc
    rcases r with ⟨err, v⟩
    rcases err with _ | m
    · rcases hrd : st.replyDone with _ | _
      · rw [List.foldl_cons, broadcastStep_success_new st v hrd]
        have hrec := ih
          { st with reply := some v, writes := st.writes + 1, replyDone := true } he hc
        simpa using hrec
      · rw [List.foldl_cons, broadcastStep_success_done st v hrd]
        simpa using ih st he hc
    · rw [List.foldl_cons, broadcastStep_err_first st m v he]
      have := broadcast_foldl_cancelled_true rs { st with e := some m, cancelled := true } rfl
      simp [this]

theorem broadcast_foldl_replyDone_true {V : Type} (rs : List (BranchResult V)) :
    ∀ st : BroadcastState V, st.replyDone = true →
      (rs.foldl broadcastStep st).reply = st.reply ∧
      (rs.foldl broadcastStep st).writes = st.writes ∧
      (rs.foldl broadcastStep st).replyDone = true := by
  induction rs with
  | nil =>
    intro st h
    exact ⟨rfl, rfl, h⟩
  | cons r rs ih =>
    intro st h
    rcases r with ⟨err, v⟩
    have hstep : (broadcastStep st ⟨err, v⟩).reply = st.reply ∧
        (broadcastStep st ⟨err, v⟩).writes = st.writes ∧
        (broadcastStep st ⟨err, v⟩).replyDone = true := by
      rcases err with _ | m <;> rcases he : st.e with _ | x <;>
        simp [broadcastStep, he, h]
    rw [List.foldl_cons]
    obtain ⟨h1, h2, h3⟩ := ih _ hstep.2.2
    exact ⟨h1.trans hstep.1, h2.trans hstep.2.1, h3⟩

theorem broadcast_foldl_reply {V : Type} (rs : List (BranchResult V)) :
    ∀ st : BroadcastState V, st.replyDone = false →
      ((rs.foldl broadcastStep st).reply =
         match rs.find? (fun r => r.err.isNone) with
         | some r => some r.val
         | none => st.reply) ∧
      ((rs.foldl broadcastStep st).writes =
         if (rs.find? (fun r => r.err.isNone)).isSome then st.writes + 1
         else st.writes) := by
  induction rs with
  | nil =>
    intro st _
    exact ⟨rfl, rfl⟩
  | cons r rs ih =>
    intro st h
    rcases r with ⟨err, v⟩
    rcases err with _ | m
    · rw [List.find?_cons_of_pos _ (by simp), List.foldl_cons,
        broadcastStep_success_new st v h]
      obtain ⟨h1, h2, _⟩ := broadcast_foldl_replyDone_true rs
        { st with reply := some v, writes := st.writes + 1, replyDone := true } rfl
      exact ⟨h1, by simpa using h2⟩
    · have hstep : (broadcastStep st ⟨some m, v⟩).reply = st.reply ∧
          (broadcastStep st ⟨some m, v⟩).writes = st.writes ∧
          (broadcastStep st ⟨some m, v⟩).replyDone = false := by
        rcases he : st.e with _ | x <;> simp [broadcastStep, he, h]
      rw [List.find?_cons_of_neg _ (by simp), List.foldl_cons]
      obtain ⟨h1, h2⟩ := ih _ hstep.2.2
      refine ⟨?_, ?_⟩
      · rw [h1, hstep.1]
      · rw [h2, hstep.2.1]

/-- C3: for a `Broadcast` whose caller passed a non-nil reply, over every
serialization of the branches' critical sections (every list of branch
outcomes in mutex order): the caller's reply slot is written at most once
and holds the first successful branch's cloned value (later successes are
discarded), the shared child context is cancelled exactly when some branch
errored (the cancel fires at the first error, which is the one retained in
`e`), and `Broadcast` returns the first-observed error or nil if no branch
errored. -/
theorem broadcast_spec {V : Type} (results : List (BranchResult V)) :
    (Broadcast false results).writes ≤ 1 ∧
    (Broadcast false results).reply =
      (results.find? (fun r => r.err.isNone)).map (fun r => r.val) ∧
    (Broadcast false results).e =
      (results.find? (fun r => r.err.isSome)).bind (fun r => r.err) ∧
    (Broadcast false results).cancelled = results.any (fun r => r.err.isSome) := by
  obtain ⟨h1, h2⟩ := broadcast_foldl_reply results
    { e := none, replyDone := false, cancelled := false, reply := none, writes := 0 } rfl
  refine ⟨?_, ?_, ?_, ?_⟩
  · rw [Broadcast, h2]
    dsimp only
    split <;> omega
  · rw [Broadcast, h1]
    cases results.find? (fun r => r.err.isNone) <;> rfl
  · exact broadcast_foldl_e results _ rfl
  · exact broadcast_foldl_cancelled results _ rfl rfl

end GeeRPC
